import Mathlib

/-!
Verification development for the purego-webp repository.

The file embeds, as executable Lean definitions:
  * the binding generator of cmd/gen/main.go (result shaping, parameter
    naming, template-data construction),
  * the dynamic loader of internal/libwebp/loader.go (one-time load with
    memoized outcome, candidate library discovery, optional symbols),
  * the ABI layout structures of the internal libwebp package, via a
    Go struct-layout calculator for a 64-bit target,
  * the input-validation logic of the libwebp wrapper package.
Native code (dlopen/dlsym, the libwebp calls themselves, and the Go
standard-library signature parser) is abstracted as explicit function
parameters of the embedded definitions.
-/

/-- A field of a Go `ast.FieldList`: zero or more names sharing one type.
Types are kept as their rendered source text (the output of `exprString`). -/
structure GoField where
  names : List String
  type : String
deriving DecidableEq

/-- `strings.Join(parts, ", ")`. -/
def joinComma : List String → String
  | [] => ""
  | [s] => s
  | s :: t :: rest => s ++ ", " ++ joinComma (t :: rest)

/-- The character for a decimal digit, as printed by Go's `fmt` verbs. -/
def decDigitChar (d : Nat) : Char := Char.ofNat (48 + d)

/-- Little-endian base-10 digits, computed with explicit fuel so that the
kernel can evaluate it; proved equal to `Nat.digits 10` below. -/
def decDigitsF : Nat → Nat → List Nat
  | 0, _ => []
  | fuel + 1, n => if n = 0 then [] else n % 10 :: decDigitsF fuel (n / 10)

/-- Little-endian base-10 digits of `n`. -/
def decDigits (n : Nat) : List Nat := decDigitsF n n

/-- Decimal rendering of a natural number, as `fmt.Sprintf("%d", n)` prints
it: most-significant digit first, and `"0"` for zero. -/
def natDecimal (n : Nat) : String :=
  if n = 0 then ("0" : String) else ⟨((decDigits n).map decDigitChar).reverse⟩

/-- The synthetic parameter name `fmt.Sprintf("arg%d", k)`. -/
def synthName (k : Nat) : String := "arg" ++ natDecimal k

/-! ## Binding generator: cmd/gen/main.go -/

/-- The recursion of `buildParamsAndArgs`'s loop (cmd/gen/main.go): for each
field, an unnamed field gets the synthetic name `arg<autoArg>` (and bumps the
counter), a named field contributes its joined names; both the per-field parts
and the flat forwarding-argument list are accumulated. -/
def buildPAAGo : List GoField → Nat → List String × List String
  | [], _ => ([], [])
  | f :: rest, autoArg =>
    if f.names.isEmpty then
      let name := synthName autoArg
      let (parts, args) := buildPAAGo rest (autoArg + 1)
      ((name ++ " " ++ f.type) :: parts, name :: args)
    else
      let (parts, args) := buildPAAGo rest autoArg
      ((joinComma f.names ++ " " ++ f.type) :: parts, f.names ++ args)

/-- `buildParamsAndArgs` from cmd/gen/main.go: renders the typed parameter
list and the forwarding argument list (both parenthesized). The `fields ==
nil || len(fields.List) == 0` early return coincides with the general
rendering on the empty list. -/
def buildParamsAndArgs (fields : List GoField) : String × String :=
  ("(" ++ joinComma (buildPAAGo fields 0).1 ++ ")",
   "(" ++ joinComma (buildPAAGo fields 0).2 ++ ")")

/-- The per-result-field rendering of `buildResults`'s loop: a bare type for
an unnamed field, joined names followed by the type otherwise. -/
def resultPart (f : GoField) : String :=
  if f.names.isEmpty then f.type else joinComma f.names ++ " " ++ f.type

/-- `buildResults` from cmd/gen/main.go: empty result list yields no return
shape; a single unnamed result yields a bare typed return; otherwise a
parenthesized multi-value return is built from the per-field parts. -/
def buildResults (fields : List GoField) : String × Bool :=
  match fields with
  | [] => ("", false)
  | f :: rest =>
    if rest.isEmpty ∧ f.names.isEmpty then (" " ++ f.type, true)
    else (" (" ++ joinComma ((f :: rest).map resultPart) ++ ")", true)

/-- The number of results a Go `FieldList` denotes: an unnamed field is one
result, a field with `k` names denotes `k` results. -/
def resultCount (fields : List GoField) : Nat :=
  (fields.map (fun f => if f.names.isEmpty then 1 else f.names.length)).sum

/-- Whether any result field carries a name. -/
def anyNamedResult (fields : List GoField) : Bool :=
  fields.any (fun f => !f.names.isEmpty)

/-- Modelled from the spec: the (name, type) parameter pairs a parsed
signature denotes — an unnamed field receives the next synthetic sequential
name `arg0`, `arg1`, ...; a named field keeps its given names, a field with
several names expanding into one pair per name, all sharing the field's
type. -/
def paramPairs : List GoField → Nat → List (String × String)
  | [], _ => []
  | f :: rest, k =>
    if f.names.isEmpty then (synthName k, f.type) :: paramPairs rest (k + 1)
    else f.names.map (fun n => (n, f.type)) ++ paramPairs rest k

/-- The synthetic names invented for the unnamed fields, in order. -/
def synthOf : List GoField → Nat → List String
  | [], _ => []
  | f :: rest, k =>
    if f.names.isEmpty then synthName k :: synthOf rest (k + 1) else synthOf rest k

/-- How many fields of the list are unnamed. -/
def unnamedCount (fields : List GoField) : Nat :=
  (fields.filter (fun f => f.names.isEmpty)).length

/-- A function descriptor from gen/spec.json (`specFunction` in
cmd/gen/main.go). -/
structure SpecFunction where
  name : String
  signature : String
  symbol : String
  optional : Bool
deriving DecidableEq

/-- A parsed signature: the parameter and result field lists of the
`ast.FuncType` obtained by parsing the signature text. -/
structure ParsedSig where
  params : List GoField
  results : List GoField
deriving DecidableEq

/-- The generated binding data (`tmplFunction` in cmd/gen/main.go). -/
structure TmplFunction where
  name : String
  signature : String
  symbol : String
  params : String
  results : String
  args : String
  hasReturn : Bool
  optional : Bool
deriving DecidableEq

/-- The generation-time error of parseFunction:
`fmt.Errorf("parse signature for %s: %w", sf.Name, err)`. -/
inductive GenError where
  | parseSignatureFor (name : String)
deriving DecidableEq

/-- `symbolName` from cmd/gen/main.go: an explicit symbol alias wins,
otherwise the declared name is the native symbol. -/
def symbolName (sf : SpecFunction) : String :=
  if sf.symbol ≠ "" then sf.symbol else sf.name

/-- `parseFunction` from cmd/gen/main.go. The Go standard-library parser
(`go/parser` on the wrapped signature text) is abstracted as the `parseSig`
argument; a malformed signature (parse failure) yields the error naming the
descriptor, otherwise the binding is built with buildParamsAndArgs and
buildResults. -/
def parseFunction (parseSig : String → Option ParsedSig) (sf : SpecFunction) :
    Except GenError TmplFunction :=
  match parseSig sf.signature with
  | none => .error (.parseSignatureFor sf.name)
  | some ps =>
    let pa := buildParamsAndArgs ps.params
    let rh := buildResults ps.results
    .ok { name := sf.name, signature := sf.signature, symbol := symbolName sf,
          params := pa.1, results := rh.1, args := pa.2,
          hasReturn := rh.2, optional := sf.optional }

/-- `buildTemplateData` from cmd/gen/main.go: parse every descriptor in
order, stopping at the first failure. -/
def buildTemplateData (parseSig : String → Option ParsedSig) :
    List SpecFunction → Except GenError (List TmplFunction)
  | [] => .ok []
  | f :: rest =>
    match parseFunction parseSig f with
    | .error e => .error e
    | .ok tf =>
      match buildTemplateData parseSig rest with
      | .error e => .error e
      | .ok tfs => .ok (tf :: tfs)

/-! ## Round trip: rendered signature text re-parsed (claim C8)

The rendered parameter/result text is represented at the granularity of its
top-level comma-separated elements (`Chunk`s): the generator only ever emits
elements that are a bare type, or one-or-more names followed by a type.
Re-parsing models the Go parameter-list grammar used by `go/parser` on the
wrapped signature text: if every element is a single expression the list is
unnamed (each element a type); otherwise the list is named and bare
identifier elements group with the next typed element, sharing its type; a
trailing bare identifier (mixed named and unnamed) is a parse error. -/

/-- One top-level comma-separated element of a rendered field list. -/
inductive Chunk where
  | single (s : String)
  | pair (name ty : String)
deriving DecidableEq

/-- The source text of one element. -/
def printChunk : Chunk → String
  | .single s => s
  | .pair n t => n ++ " " ++ t

/-- The elements rendering one field: its names, the last one joined with
the type (`"a, b T"`), or the bare type for an unnamed field. -/
def namedChunks : List String → String → List Chunk
  | [], t => [.single t]
  | [n], t => [.pair n t]
  | n :: m :: ns, t => .single n :: namedChunks (m :: ns) t

/-- The elements rendering a field (names plus type, or bare type). -/
def fieldChunks (f : GoField) : List Chunk := namedChunks f.names f.type

/-- The parameter fields after synthetic naming: an unnamed field becomes a
field named with the next sequential synthetic name. -/
def synthFields : List GoField → Nat → List GoField
  | [], _ => []
  | f :: rest, k =>
    if f.names.isEmpty then ⟨[synthName k], f.type⟩ :: synthFields rest (k + 1)
    else f :: synthFields rest k

/-- The elements of the rendered parameter list. -/
def paramChunks (fields : List GoField) : List Chunk :=
  ((synthFields fields 0).map fieldChunks).flatten

/-- Named-mode re-parse (Go parameter-list grammar): bare identifiers are
pending names; a `name type` element closes a group of all pending names
sharing that type; a trailing pending name is a parse error. -/
def reparseNamed : List String → List Chunk → Option (List GoField)
  | pending, [] => if pending.isEmpty then some [] else none
  | pending, .single n :: rest => reparseNamed (pending ++ [n]) rest
  | pending, .pair n t :: rest =>
    (reparseNamed [] rest).map (fun fs => ⟨pending ++ [n], t⟩ :: fs)

/-- Whether every element is a single expression. -/
def allSingles (cs : List Chunk) : Bool :=
  cs.all (fun c => match c with | .single _ => true | .pair _ _ => false)

/-- Re-parse a rendered parameter list (Go grammar disambiguation): all
single elements means an unnamed list of types, otherwise named mode. -/
def reparseChunks (cs : List Chunk) : Option (List GoField) :=
  if allSingles cs then
    some (cs.map (fun c =>
      match c with | .single t => ⟨[], t⟩ | .pair n t => ⟨[n], t⟩))
  else reparseNamed [] cs

/-- The ordered (name, type) pairs a field list denotes. -/
def flatPairs (fields : List GoField) : List (String × String) :=
  (fields.map (fun f => f.names.map (fun n => (n, f.type)))).flatten

/-- The rendered result shape of buildResults, kept at element granularity:
no text, a bare type, or a parenthesized element list. -/
inductive RRes where
  | void
  | bare (t : String)
  | paren (cs : List Chunk)
deriving DecidableEq

/-- The (text, hasReturn) pair an RRes prints to. -/
def printRRes : RRes → String × Bool
  | .void => ("", false)
  | .bare t => (" " ++ t, true)
  | .paren cs => (" (" ++ joinComma (cs.map printChunk) ++ ")", true)

/-- The result shape buildResults renders, at element granularity. -/
def resultChunksR (fields : List GoField) : RRes :=
  match fields with
  | [] => .void
  | f :: rest =>
    if rest.isEmpty ∧ f.names.isEmpty then .bare f.type
    else .paren (((f :: rest).map fieldChunks).flatten)

/-- Re-parsing a rendered result shape: no text is an empty result list, a
bare type is one unnamed result, a parenthesized list follows the Go
parameter-list grammar. -/
def reparseResults : RRes → Option (List GoField)
  | .void => some []
  | .bare t => some [⟨[], t⟩]
  | .paren cs => reparseChunks cs

/-! ## Dynamic loader: internal/libwebp/loader.go

`purego.Dlopen`/`purego.Dlsym` are abstracted as the environment functions
`dlopen` (library name to handle or error cause) and `dlsym` (handle and
symbol name to address). `sync.Once` plus the package-level `loadErr` are a
sequential state machine; call counters record how often the library open
and the symbol registration actually run. -/

/-- The supported values of `runtime.GOOS` in `candidateLibNames`. -/
inductive GoOS where
  | linux
  | darwin
  | windows
  | other
deriving DecidableEq

/-- `candidateLibNames` from loader.go: the per-platform ordered candidate
library file names. -/
def candidateLibNames : GoOS → List String
  | .linux => ["libwebp.so", "libwebp.so.8", "libwebp.so.7", "libwebp.so.6"]
  | .darwin => ["libwebp.dylib"]
  | .windows => ["libwebp.dll", "webp.dll"]
  | .other => ["libwebp.so"]

/-- The loop of `openLib`: try each candidate in order, returning the first
successfully opened handle; a failed candidate appends `name: cause` to the
error list. At the end the errors are aggregated (`errors.Join`, which is
nil for an empty list). -/
def openLibGo (dlopen : String → Except String Nat) :
    List String → List (String × String) → Nat × Option (List (String × String))
  | [], errs => (0, if errs.isEmpty then none else some errs)
  | n :: rest, errs =>
    match dlopen n with
    | .ok h => (h, none)
    | .error c => openLibGo dlopen rest (errs ++ [(n, c)])

/-- `openLib` from loader.go. -/
def openLib (dlopen : String → Except String Nat) (os : GoOS) :
    Nat × Option (List (String × String)) :=
  openLibGo dlopen (candidateLibNames os) []

/-- The candidate names `openLib` actually hands to Dlopen, in order. -/
def openLibAttempts (dlopen : String → Except String Nat) : List String → List String
  | [] => []
  | n :: rest =>
    n :: (match dlopen n with
          | .ok _ => []
          | .error _ => openLibAttempts dlopen rest)

/-- The loader's environment: the abstracted native primitives and the
compiled-in registration data. `dlsym` takes the opened handle and a symbol
name. -/
structure LoadEnv where
  dlopen : String → Except String Nat
  dlsym : Nat → String → Option Nat
  os : GoOS
  mandatorySymbols : List String

/-- A load failure: either no candidate opened (the aggregated causes), or
a mandatory symbol failed to resolve. -/
inductive LoadErr where
  | openFailed (errs : List (String × String))
  | resolveFailed (msg : String)
deriving DecidableEq

/-- The loader's process-wide state: the `sync.Once` flag, the memoized
`loadErr`, the optional `xWebPValidateDecoderConfig` function pointer, and
counters for how often `openLib` and `registerAll` were actually run. -/
structure LoaderState where
  done : Bool
  loadErr : Option LoadErr
  validatePtr : Option Nat
  openCalls : Nat
  registerAllCalls : Nat
deriving DecidableEq

/-- The state before the first `EnsureLoaded` call. -/
def initState : LoaderState :=
  { done := false, loadErr := none, validatePtr := none,
    openCalls := 0, registerAllCalls := 0 }

/-- `register` from loader.go: resolve `symbol`, failing with
`resolve <symbol>: ...` if absent. -/
def registerSym (env : LoadEnv) (lib : Nat) (symbol : String) : Option String :=
  match env.dlsym lib symbol with
  | none => some ("resolve " ++ symbol)
  | some _ => none

/-- `registerOptional` from loader.go: the function pointer is bound only
when the symbol resolves; a missing symbol is silently ignored and the
pointer stays nil. -/
def registerOptionalPtr (env : LoadEnv) (lib : Nat) (symbol : String) : Option Nat :=
  env.dlsym lib symbol

/-- The optional symbol feature-detected by the loader. -/
def validateSymbol : String := "WebPValidateDecoderConfig"

/-- Modelled from the spec: `registerAll` lives in the generated
generated_symbols.go, which is not among the sources. Per spec §4.2, every
mandatory binding's native symbol must resolve and the failure of any
mandatory symbol fails the whole load (via `register`), while the optional
binding is registered with `registerOptional` and a missing optional symbol
is not an error. -/
def registerAllMandatory (env : LoadEnv) (lib : Nat) : List String → Option String
  | [] => none
  | s :: rest =>
    match registerSym env lib s with
    | some e => some e
    | none => registerAllMandatory env lib rest

/-- `EnsureLoaded` from loader.go as a sequential state transition: inside
`loadOnce.Do`, open the library, then register all symbols, memoizing the
outcome in `loadErr`; once done, every call returns the memoized outcome
without re-running anything. -/
def ensureLoaded (env : LoadEnv) (s : LoaderState) : LoaderState × Option LoadErr :=
  if s.done then (s, s.loadErr)
  else
    match (openLib env.dlopen env.os).2 with
    | some errs =>
      (⟨true, some (.openFailed errs), s.validatePtr, s.openCalls + 1,
        s.registerAllCalls⟩, some (.openFailed errs))
    | none =>
      match registerAllMandatory env (openLib env.dlopen env.os).1 env.mandatorySymbols with
      | some e =>
        (⟨true, some (.resolveFailed e), s.validatePtr, s.openCalls + 1,
          s.registerAllCalls + 1⟩, some (.resolveFailed e))
      | none =>
        (⟨true, none, registerOptionalPtr env (openLib env.dlopen env.os).1 validateSymbol,
          s.openCalls + 1, s.registerAllCalls + 1⟩, none)

/-- `Available` from loader.go. -/
def available (env : LoadEnv) (s : LoaderState) : LoaderState × Bool :=
  let r := ensureLoaded env s
  (r.1, (r.2 == none))

/-- `ValidateDecoderConfigAvailable` from loader.go:
`EnsureLoaded() == nil && xWebPValidateDecoderConfig != nil`. -/
def validateDecoderConfigAvailable (env : LoadEnv) (s : LoaderState) :
    LoaderState × Bool :=
  let r := ensureLoaded env s
  (r.1, (r.2 == none) && r.1.validatePtr.isSome)

/-- `n` sequential `EnsureLoaded` calls from the initial state: the final
state and the outcomes observed by the callers, in order. -/
def ensureLoadedN (env : LoadEnv) : Nat → LoaderState × List (Option LoadErr)
  | 0 => (initState, [])
  | n + 1 =>
    let prev := ensureLoadedN env n
    let r := ensureLoaded env prev.1
    (r.1, prev.2 ++ [r.2])

/-! ## ABI layout structures (claim C7)

The Go struct definitions of the internal libwebp package are embedded as
lists of field types, and their layout (per-field offsets, total size) is
computed with Go's struct-layout rules for a 64-bit platform (linux/amd64,
darwin/arm64, windows/amd64): each field is aligned to its type's
alignment, the struct is aligned to the maximal field alignment, and the
size is rounded up to that alignment. `int32`/`uint32`/`float32` have size
and alignment 4, `uintptr` has size and alignment 8, a byte array `[n]byte`
has size `n` and alignment 1, and an array `[n]T` has `n` times the size of
`T` and the alignment of `T`. -/

/-- A Go field type as used by the layout structures: 32-bit scalars,
pointer-sized words, arrays, raw byte blocks, and embedded structs (with
their already-computed size and alignment). -/
inductive GoTy where
  | i32
  | u32
  | f32
  | uptr
  | arr (n : Nat) (t : GoTy)
  | bytes (n : Nat)
  | sub (size align : Nat)
deriving DecidableEq

/-- The alignment of a field type on a 64-bit platform. -/
def tyAlign : GoTy → Nat
  | .i32 => 4
  | .u32 => 4
  | .f32 => 4
  | .uptr => 8
  | .arr _ t => tyAlign t
  | .bytes _ => 1
  | .sub _ a => a

/-- The size of a field type on a 64-bit platform. -/
def tySize : GoTy → Nat
  | .i32 => 4
  | .u32 => 4
  | .f32 => 4
  | .uptr => 8
  | .arr n t => n * tySize t
  | .bytes n => n
  | .sub s _ => s

/-- Round `o` up to a multiple of the alignment `a`. -/
def alignUp (o a : Nat) : Nat := ((o + a - 1) / a) * a

/-- The field offsets of a struct whose fields have the given types,
starting at offset `o`. -/
def fieldOffsets : List GoTy → Nat → List Nat
  | [], _ => []
  | t :: ts, o =>
    let o2 := alignUp o (tyAlign t)
    o2 :: fieldOffsets ts (o2 + tySize t)

/-- The offset one past the last field. -/
def structEnd : List GoTy → Nat → Nat
  | [], o => o
  | t :: ts, o => structEnd ts (alignUp o (tyAlign t) + tySize t)

/-- The alignment of a struct: the maximal field alignment (1 if empty). -/
def structAlign (ts : List GoTy) : Nat :=
  ts.foldr (fun t m => max (tyAlign t) m) 1

/-- The size of a struct: the end offset rounded up to the struct's
alignment. -/
def structSize (ts : List GoTy) : Nat :=
  alignUp (structEnd ts 0) (structAlign ts)

/-- WebPBitstreamFeatures: Width, Height, HasAlpha, HasAnimation, Format
(int32), Pad [5]uint32. -/
def webPBitstreamFeaturesFields : List GoTy :=
  [.i32, .i32, .i32, .i32, .i32, .arr 5 .u32]

/-- WebPRGBABuffer: RGBA uintptr, Stride int32, anonymous pad int32,
Size uintptr. -/
def webPRGBABufferFields : List GoTy :=
  [.uptr, .i32, .i32, .uptr]

/-- WebPYUVABuffer: Y, U, V, A uintptr; YStride, UStride, VStride, AStride
int32; YSize, USize, VSize, ASize uintptr. -/
def webPYUVABufferFields : List GoTy :=
  [.uptr, .uptr, .uptr, .uptr, .i32, .i32, .i32, .i32, .uptr, .uptr, .uptr, .uptr]

/-- WebPDecBuffer: Colorspace, Width, Height, IsExternalMemory (int32),
BufferUnion [80]byte, Pad [4]uint32, PrivateMemory uintptr. -/
def webPDecBufferFields : List GoTy :=
  [.i32, .i32, .i32, .i32, .bytes 80, .arr 4 .u32, .uptr]

/-- WebPDecoderOptions: fourteen int32 options then Pad [5]uint32. -/
def webPDecoderOptionsFields : List GoTy :=
  [.i32, .i32, .i32, .i32, .i32, .i32, .i32, .i32, .i32, .i32, .i32, .i32,
   .i32, .i32, .arr 5 .u32]

/-- WebPDecoderConfig: Input WebPBitstreamFeatures, Output WebPDecBuffer,
Options WebPDecoderOptions (embedded structs with their computed layouts). -/
def webPDecoderConfigFields : List GoTy :=
  [.sub (structSize webPBitstreamFeaturesFields) (structAlign webPBitstreamFeaturesFields),
   .sub (structSize webPDecBufferFields) (structAlign webPDecBufferFields),
   .sub (structSize webPDecoderOptionsFields) (structAlign webPDecoderOptionsFields)]

/-- WebPConfig: Lossless int32, Quality float32, Method, ImageHint,
TargetSize int32, TargetPSNR float32, then twenty-three further int32
fields (Segments through QMax). -/
def webPConfigFields : List GoTy :=
  [.i32, .f32, .i32, .i32, .i32, .f32, .i32, .i32, .i32, .i32, .i32, .i32,
   .i32, .i32, .i32, .i32, .i32, .i32, .i32, .i32, .i32, .i32, .i32, .i32,
   .i32, .i32, .i32, .i32, .i32]

/-- WebPMemoryWriter: Mem, Size, MaxSize uintptr, Pad [1]uint32. -/
def webPMemoryWriterFields : List GoTy :=
  [.uptr, .uptr, .uptr, .arr 1 .u32]

/-- WebPPicture: UseArgb, Colorspace, Width, Height int32; Y, U, V uintptr;
YStride, UvStride int32; A uintptr; AStride int32; Pad1 [2]uint32; Argb
uintptr; ArgbStride int32; Pad2 [3]uint32; Writer, CustomPtr uintptr;
ExtraInfoType int32; ExtraInfo, Stats uintptr; ErrorCode int32;
ProgressHook, UserData uintptr; Pad3 [3]uint32; Pad4, Pad5 uintptr;
Pad6 [8]uint32; Memory, MemoryArgb uintptr; Pad7 [2]uintptr. -/
def webPPictureFields : List GoTy :=
  [.i32, .i32, .i32, .i32, .uptr, .uptr, .uptr, .i32, .i32, .uptr, .i32,
   .arr 2 .u32, .uptr, .i32, .arr 3 .u32, .uptr, .uptr, .i32, .uptr, .uptr,
   .i32, .uptr, .uptr, .arr 3 .u32, .uptr, .uptr, .arr 8 .u32, .uptr,
   .uptr, .arr 2 .uptr]

/-- Modelled from the spec: the fixed expected layout constants of the
targeted ABI version 0x0210, derived from the C structure declarations of
libwebp's decode.h / encode.h on an LP64 platform (int and float are 4
bytes, pointers and size_t are 8 bytes, the output-buffer union is the
80-byte WebPYUVABuffer variant). Each entry is (field offsets, total
size). -/
def expectedLayouts : List (List Nat × Nat) :=
  [([0, 4, 8, 12, 16, 20], 40),
   ([0, 8, 12, 16], 24),
   ([0, 4, 8, 12, 16, 96, 112], 120),
   ([0, 4, 8, 12, 16, 20, 24, 28, 32, 36, 40, 44, 48, 52, 56], 76),
   ([0, 40, 160], 240),
   ([0, 4, 8, 12, 16, 20, 24, 28, 32, 36, 40, 44, 48, 52, 56, 60, 64, 68,
     72, 76, 80, 84, 88, 92, 96, 100, 104, 108, 112], 116),
   ([0, 8, 16, 24], 32),
   ([0, 4, 8, 12, 16, 24, 32, 40, 44, 48, 56, 60, 72, 80, 84, 96, 104, 112,
     120, 128, 136, 144, 152, 160, 176, 184, 192, 224, 232, 240], 256)]

/-! ## libwebp wrapper package: libwebp/libwebp.go (claims C9, C10)

The wrappers' control flow is embedded with the native libwebp calls
abstracted as function parameters and the loader outcome as an
`Option String` (nil or the memoized load error). Pixel data is a byte
list; Go `int` values are `Int`. -/

/-- The sentinel errors of the libwebp package, plus the dynamic
buffer-too-small error of validatePixelInput (which carries got/need). -/
inductive LibError where
  | load (e : String)
  | invalidData
  | decodeFailed
  | encodeFailed
  | invalidDimension
  | invalidStride
  | bufferTooSmall (got need : Int)
deriving DecidableEq

/-- `WebPGetInfo` from libwebp/libwebp.go: a load failure is returned as
the error; empty data returns (0, 0, false, nil); otherwise the native
`WebPGetInfo` (abstracted as `native`, returning width, height and the
int return value) decides the result. -/
def webPGetInfo (load : Option String) (native : List Nat → Int × Int × Int)
    (data : List Nat) : Int × Int × Bool × Option LibError :=
  match load with
  | some e => (0, 0, false, some (.load e))
  | none =>
    if data.length = 0 then (0, 0, false, none)
    else
      let r := native data
      (r.1, r.2.1, r.2.2 != 0, none)

/-- `decodeToOwnedBuffer` from libwebp/libwebp.go: load failure first, then
empty input is ErrInvalidData; the native decode (abstracted, returning the
decoded bytes and dimensions, or none for a nil pointer) failing is
ErrDecodeFailed; non-positive dimensions are ErrInvalidDimension; otherwise
the owned copy with stride = width * bytesPerPixel is returned. -/
def decodeToOwnedBuffer (load : Option String)
    (native : List Nat → Option (List Nat × Int × Int)) (bpp : Int)
    (data : List Nat) : Except LibError (List Nat × Int × Int × Int) :=
  match load with
  | some e => .error (.load e)
  | none =>
    if data.length = 0 then .error .invalidData
    else
      match native data with
      | none => .error .decodeFailed
      | some r =>
        if r.2.1 ≤ 0 ∨ r.2.2 ≤ 0 then .error .invalidDimension
        else .ok (r.1.take ((r.2.1 * bpp * r.2.2).toNat), r.2.1, r.2.2, r.2.1 * bpp)

/-- The 64-bit two's-complement wrap of an integer: Go `int` is 64 bits
wide on the supported platforms and its arithmetic wraps around. -/
def wrap64 (x : Int) : Int := (x + 2 ^ 63) % 2 ^ 64 - 2 ^ 63

/-- Go `int` multiplication on a 64-bit platform (wrapping). -/
def goMul (a b : Int) : Int := wrap64 (a * b)

/-- `validatePixelInput` from libwebp/libwebp.go: dimension check first,
then the stride check against `width*bytesPerPixel`, then the buffer-size
check against `required := stride * height`; both products are Go `int`
multiplications and wrap on overflow. -/
def validatePixelInput (pixLen w h stride bpp : Int) : Option LibError :=
  if w ≤ 0 ∨ h ≤ 0 then some .invalidDimension
  else if stride < goMul w bpp then some .invalidStride
  else if pixLen < goMul stride h then some (.bufferTooSmall pixLen (goMul stride h))
  else none

/-- The observable behaviour of an encode wrapper: an error, a completed
native call (with the encoded output or ErrEncodeFailed inside), or an
out-of-range index of `&pix[0]` (a Go panic). -/
inductive EncResult where
  | ok (out : List Nat)
  | err (e : LibError)
  | panicked
deriving DecidableEq

/-- `encodeWithQuality` from libwebp/libwebp.go: load check, then
validatePixelInput, then the native lossy encode on `&pix[0]` (abstracted
as `fn` over the first byte and the numeric arguments; `none` models size
== 0 or a nil output pointer). -/
def encodeWithQuality {Q : Type} (load : Option String) (pix : List Nat)
    (w h stride bpp : Int) (quality : Q)
    (fn : Nat → Int → Int → Int → Q → Option (List Nat)) : EncResult :=
  match load with
  | some e => .err (.load e)
  | none =>
    match validatePixelInput pix.length w h stride bpp with
    | some e => .err e
    | none =>
      match pix.head? with
      | none => .panicked
      | some b =>
        match fn b w h stride quality with
        | none => .err .encodeFailed
        | some out => .ok out

/-- `encodeLossless` from libwebp/libwebp.go: as encodeWithQuality but the
native call takes no quality argument. -/
def encodeLossless (load : Option String) (pix : List Nat)
    (w h stride bpp : Int)
    (fn : Nat → Int → Int → Int → Option (List Nat)) : EncResult :=
  match load with
  | some e => .err (.load e)
  | none =>
    match validatePixelInput pix.length w h stride bpp with
    | some e => .err e
    | none =>
      match pix.head? with
      | none => .panicked
      | some b =>
        match fn b w h stride with
        | none => .err .encodeFailed
        | some out => .ok out

/-- `WebPEncodeRGBA` (bytesPerPixel 4); `WebPEncodeBGRA` is identical. -/
def webPEncodeRGBA {Q : Type} (load : Option String) (pix : List Nat)
    (w h stride : Int) (quality : Q)
    (fn : Nat → Int → Int → Int → Q → Option (List Nat)) : EncResult :=
  encodeWithQuality load pix w h stride 4 quality fn

/-- `WebPEncodeRGB` (bytesPerPixel 3); `WebPEncodeBGR` is identical. -/
def webPEncodeRGB {Q : Type} (load : Option String) (pix : List Nat)
    (w h stride : Int) (quality : Q)
    (fn : Nat → Int → Int → Int → Q → Option (List Nat)) : EncResult :=
  encodeWithQuality load pix w h stride 3 quality fn

/-- `WebPEncodeLosslessRGBA` (bytesPerPixel 4); `WebPEncodeLosslessBGRA`
is identical. -/
def webPEncodeLosslessRGBA (load : Option String) (pix : List Nat)
    (w h stride : Int) (fn : Nat → Int → Int → Int → Option (List Nat)) : EncResult :=
  encodeLossless load pix w h stride 4 fn

/-- `WebPEncodeLosslessRGB` (bytesPerPixel 3); `WebPEncodeLosslessBGR`
is identical. -/
def webPEncodeLosslessRGB (load : Option String) (pix : List Nat)
    (w h stride : Int) (fn : Nat → Int → Int → Int → Option (List Nat)) : EncResult :=
  encodeLossless load pix w h stride 3 fn

theorem decDigitsF_eq_digits : ∀ fuel n, n ≤ fuel → decDigitsF fuel n = Nat.digits 10 n := by
  intro fuel
  induction fuel with
  | zero => intro n hn; interval_cases n; simp [decDigitsF]
  | succ f ih =>
    intro n hn
    by_cases h0 : n = 0
    · simp [decDigitsF, h0]
    · have hpos : 0 < n := Nat.pos_of_ne_zero h0
      rw [decDigitsF, if_neg h0, Nat.digits_def' (by norm_num : 1 < 10) hpos]
      have hdiv : n / 10 ≤ f := by
        have : n / 10 < n := Nat.div_lt_self hpos (by norm_num)
        omega
      rw [ih (n / 10) hdiv]

theorem decDigits_eq_digits (n : Nat) : decDigits n = Nat.digits 10 n :=
  decDigitsF_eq_digits n n (Nat.le_refl n)

example : natDecimal 0 = "0" := by decide

example : natDecimal 7 = "7" := by decide

example : natDecimal 12 = "12" := by decide

example : synthName 0 = "arg0" := by decide

example : synthName 10 = "arg10" := by decide

theorem decDigitChar_injOn : ∀ a, a < 10 → ∀ b, b < 10 →
    decDigitChar a = decDigitChar b → a = b := by decide

theorem map_decDigitChar_inj : ∀ l₁ l₂ : List Nat,
    (∀ x ∈ l₁, x < 10) → (∀ x ∈ l₂, x < 10) →
    l₁.map decDigitChar = l₂.map decDigitChar → l₁ = l₂ := by
  intro l₁
  induction l₁ with
  | nil => intro l₂ _ _ h; cases l₂ <;> simp_all
  | cons a t ih =>
    intro l₂ h₁ h₂ h
    cases l₂ with
    | nil => simp_all
    | cons b t₂ =>
      simp only [List.map_cons, List.cons.injEq] at h
      have ha := h₁ a (by simp)
      have hb := h₂ b (by simp)
      have : a = b := decDigitChar_injOn a ha b hb h.1
      subst this
      have := ih t₂ (fun x hx => h₁ x (by simp [hx])) (fun x hx => h₂ x (by simp [hx])) h.2
      simp [this]

theorem natDecimal_injective : Function.Injective natDecimal := by
  intro a b h
  unfold natDecimal at h
  by_cases ha : a = 0 <;> by_cases hb : b = 0 <;> simp [ha, hb] at h ⊢
  · -- a = 0, b ≠ 0
    exfalso
    have hdata := congrArg String.data h
    simp only [String.data] at hdata
    have hd : ('0' : Char) :: [] = ((decDigits b).map decDigitChar).reverse := hdata
    have hrev : ((decDigits b).map decDigitChar) = ['0'] := by
      have := congrArg List.reverse hd
      simpa using this.symm
    have : (decDigits b).map decDigitChar = ([0].map decDigitChar) := by
      simpa [decDigitChar] using hrev
    rw [decDigits_eq_digits] at this
    have hdig : Nat.digits 10 b = [0] :=
      map_decDigitChar_inj _ _
        (fun x hx => Nat.digits_lt_base (by norm_num) hx)
        (by intro x hx; simp at hx; omega) this
    have := Nat.ofDigits_digits 10 b
    rw [hdig] at this
    simp [Nat.ofDigits] at this
    exact hb this.symm
  · -- a ≠ 0, b = 0
    exfalso
    have hdata := congrArg String.data h
    simp only [String.data] at hdata
    have hd : ((decDigits a).map decDigitChar).reverse = ('0' : Char) :: [] := hdata
    have hrev : ((decDigits a).map decDigitChar) = ['0'] := by
      have := congrArg List.reverse hd
      simpa using this
    have : (decDigits a).map decDigitChar = ([0].map decDigitChar) := by
      simpa [decDigitChar] using hrev
    rw [decDigits_eq_digits] at this
    have hdig : Nat.digits 10 a = [0] :=
      map_decDigitChar_inj _ _
        (fun x hx => Nat.digits_lt_base (by norm_num) hx)
        (by intro x hx; simp at hx; omega) this
    have := Nat.ofDigits_digits 10 a
    rw [hdig] at this
    simp [Nat.ofDigits] at this
    exact ha this.symm
  · -- both nonzero
    have hdata := congrArg String.data h
    simp only [String.data] at hdata
    have hmap : (decDigits a).map decDigitChar = (decDigits b).map decDigitChar := by
      have := congrArg List.reverse hdata
      simpa using this
    rw [decDigits_eq_digits, decDigits_eq_digits] at hmap
    have hdig : Nat.digits 10 a = Nat.digits 10 b :=
      map_decDigitChar_inj _ _
        (fun x hx => Nat.digits_lt_base (by norm_num) hx)
        (fun x hx => Nat.digits_lt_base (by norm_num) hx) hmap
    have := Nat.ofDigits_digits 10 a
    rw [hdig, Nat.ofDigits_digits] at this
    exact this.symm

theorem synthName_injective : Function.Injective synthName := by
  intro a b h
  apply natDecimal_injective
  have hdata := congrArg String.data h
  have : ("arg").data ++ (natDecimal a).data = ("arg").data ++ (natDecimal b).data := by
    simpa [synthName, String.data_append] using hdata
  have hdec : (natDecimal a).data = (natDecimal b).data := by
    exact List.append_cancel_left this
  cases hna : natDecimal a
  cases hnb : natDecimal b
  simp_all

theorem resultCount_ge_length (fields : List GoField) : fields.length ≤ resultCount fields := by
  induction fields with
  | nil => simp [resultCount]
  | cons f rest ih =>
    simp only [resultCount, List.map_cons, List.sum_cons, List.length_cons] at ih ⊢
    by_cases h : f.names.isEmpty
    · simp only [h, if_true]
      omega
    · simp only [h, Bool.false_eq_true, if_false]
      have h1 : 1 ≤ f.names.length := by
        cases hn : f.names
        · simp [hn] at h
        · simp [hn]
      omega

/-- Claim C3: buildResults produces no return shape for an empty result
list, a bare typed return for exactly one unnamed result, and a
parenthesized structured return whenever there are two or more results or
any result is named. -/
theorem buildResults_shape (fields : List GoField) :
    (fields = [] → buildResults fields = ("", false)) ∧
    (resultCount fields = 1 ∧ anyNamedResult fields = false →
      ∃ t, fields = [⟨[], t⟩] ∧ buildResults fields = (" " ++ t, true)) ∧
    ((2 ≤ resultCount fields ∨ anyNamedResult fields = true) →
      (buildResults fields).2 = true ∧
      ∃ body, (buildResults fields).1 = " (" ++ body ++ ")") := by
  refine ⟨fun h => by subst h; rfl, ?_, ?_⟩
  · rintro ⟨hc, hn⟩
    match fields with
    | [] => simp [resultCount] at hc
    | f :: rest =>
      have hlen : (f :: rest).length ≤ 1 := hc ▸ resultCount_ge_length (f :: rest)
      have hrest : rest = [] := by
        cases rest
        · rfl
        · simp at hlen
      subst hrest
      have hemp : f.names.isEmpty := by
        simp only [anyNamedResult, List.any_cons, List.any_nil, Bool.or_false,
          Bool.not_eq_true'] at hn
        simpa using hn
      have hfn : f.names = [] := List.isEmpty_iff.mp hemp
      refine ⟨f.type, ?_, ?_⟩
      · cases f
        simp_all
      · simp [buildResults, hemp]
  · intro h
    match fields with
    | [] =>
      exfalso
      rcases h with h | h
      · simp [resultCount] at h
      · simp [anyNamedResult] at h
    | f :: rest =>
      by_cases hbare : rest.isEmpty ∧ f.names.isEmpty
      · exfalso
        obtain ⟨hr, hf⟩ := hbare
        have hrest : rest = [] := List.isEmpty_iff.mp hr
        subst hrest
        have hfn : f.names = [] := List.isEmpty_iff.mp hf
        rcases h with h | h
        · simp [resultCount, hfn] at h
        · simp [anyNamedResult, hfn] at h
      · have hbare' : ¬(rest = [] ∧ f.names = []) := by
          simpa [List.isEmpty_iff] using hbare
        refine ⟨?_, joinComma ((f :: rest).map resultPart), ?_⟩ <;>
          simp [buildResults, hbare']

theorem buildPAAGo_args (fields : List GoField) :
    ∀ k, (buildPAAGo fields k).2 = (paramPairs fields k).map Prod.fst := by
  induction fields with
  | nil => intro k; rfl
  | cons f rest ih =>
    intro k
    by_cases h : f.names.isEmpty
    · simp [buildPAAGo, paramPairs, h, ih]
    · simp only [buildPAAGo, paramPairs, h, if_false, Bool.false_eq_true]
      simp [ih, List.map_map, Function.comp_def]

theorem synthOf_eq_range (fields : List GoField) :
    ∀ k, synthOf fields k = (List.range' k (unnamedCount fields)).map synthName := by
  induction fields with
  | nil => intro k; rfl
  | cons f rest ih =>
    intro k
    by_cases h : f.names.isEmpty
    · simp only [synthOf, unnamedCount, h, if_true, List.filter_cons_of_pos,
        List.length_cons, List.range'_succ, List.map_cons]
      rw [ih]
      rfl
    · simp only [synthOf, h, Bool.false_eq_true, if_false, unnamedCount]
      rw [List.filter_cons_of_neg (by simpa using h)]
      exact ih k

/-- Claim C5: the forwarding argument list of buildParamsAndArgs lists, in
order, exactly the parameter names of the parsed signature — unnamed
parameters receive the sequential, pairwise-distinct synthetic names
`arg0`, `arg1`, ... while named parameters keep their given names and a
multi-name field expands into one parameter per name. -/
theorem buildParams_naming (fields : List GoField) :
    (buildParamsAndArgs fields).2 =
      "(" ++ joinComma ((paramPairs fields 0).map Prod.fst) ++ ")" ∧
    synthOf fields 0 = (List.range (unnamedCount fields)).map synthName ∧
    (synthOf fields 0).Nodup := by
  refine ⟨?_, ?_, ?_⟩
  · simp [buildParamsAndArgs, buildPAAGo_args]
  · rw [synthOf_eq_range, List.range_eq_range']
  · rw [synthOf_eq_range, ← List.range_eq_range']
    exact (List.nodup_range _).map synthName_injective

/-- Witness for buildResults_shape: the bare-return case at a concrete
single unnamed result of type int. -/
theorem buildResults_shape_witness :
    ∃ t, ([⟨[], "int"⟩] : List GoField) = [⟨[], t⟩] ∧
      buildResults [⟨[], "int"⟩] = (" " ++ t, true) :=
  (buildResults_shape [⟨[], "int"⟩]).2.1 ⟨by decide, by decide⟩

theorem parseFunction_ok_of_isSome (parseSig : String → Option ParsedSig)
    (sf : SpecFunction) (h : (parseSig sf.signature).isSome) :
    ∃ tf, parseFunction parseSig sf = .ok tf := by
  unfold parseFunction
  cases hp : parseSig sf.signature
  · rw [hp] at h; simp at h
  · exact ⟨_, rfl⟩

theorem buildTemplateData_error_at (parseSig : String → Option ParsedSig) :
    ∀ pre (bad : SpecFunction) rest,
      (∀ f ∈ pre, (parseSig f.signature).isSome) →
      parseSig bad.signature = none →
      buildTemplateData parseSig (pre ++ bad :: rest) =
        .error (.parseSignatureFor bad.name) := by
  intro pre
  induction pre with
  | nil =>
    intro bad rest _ hbad
    simp only [List.nil_append]
    unfold buildTemplateData parseFunction
    rw [hbad]
  | cons f pre ih =>
    intro bad rest hpre hbad
    obtain ⟨tf, htf⟩ := parseFunction_ok_of_isSome parseSig f (hpre f (by simp))
    have hrec := ih bad rest (fun g hg => hpre g (by simp [hg])) hbad
    simp only [List.cons_append]
    unfold buildTemplateData
    rw [htf, hrec]

/-- Claim C4: generation is all-or-nothing — if every signature parses,
buildTemplateData returns exactly one binding per descriptor, in input
order; if some descriptor is malformed, the first such descriptor is named
in the error and no bindings are returned. -/
theorem buildTemplateData_allOrNothing (parseSig : String → Option ParsedSig)
    (fns : List SpecFunction) :
    ((∀ f ∈ fns, (parseSig f.signature).isSome) →
      ∃ tfs, buildTemplateData parseSig fns = .ok tfs ∧
        tfs.length = fns.length ∧
        ∀ i, (h : i < fns.length) → (h2 : i < tfs.length) →
          parseFunction parseSig (fns.get ⟨i, h⟩) = .ok (tfs.get ⟨i, h2⟩)) ∧
    (∀ pre bad rest, fns = pre ++ bad :: rest →
      (∀ f ∈ pre, (parseSig f.signature).isSome) →
      parseSig bad.signature = none →
      buildTemplateData parseSig fns = .error (.parseSignatureFor bad.name)) := by
  constructor
  · induction fns with
    | nil => intro _; exact ⟨[], rfl, rfl, fun i h _ => by simp at h⟩
    | cons f rest ih =>
      intro hall
      obtain ⟨tf, htf⟩ := parseFunction_ok_of_isSome parseSig f (hall f (by simp))
      obtain ⟨tfs, htfs, hlen, hidx⟩ := ih (fun g hg => hall g (by simp [hg]))
      refine ⟨tf :: tfs, ?_, by simp [hlen], ?_⟩
      · unfold buildTemplateData
        rw [htf, htfs]
      · intro i h h2
        match i with
        | 0 => simpa using htf
        | Nat.succ j =>
          simp only [List.get_cons_succ]
          exact hidx j (by simpa using h) (by simpa using h2)
  · intro pre bad rest heq hpre hbad
    subst heq
    exact buildTemplateData_error_at parseSig pre bad rest hpre hbad

/-- Witness for buildTemplateData_allOrNothing: a well-formed descriptor
followed by a malformed one fails generation naming the second descriptor. -/
theorem buildTemplateData_witness :
    buildTemplateData (fun s => if s = "func()" then some ⟨[], []⟩ else none)
      [⟨"A", "func()", "", false⟩, ⟨"B", "bad", "", false⟩] =
      .error (.parseSignatureFor ("B")) :=
  (buildTemplateData_allOrNothing
      (fun s => if s = "func()" then some ⟨[], []⟩ else none)
      [⟨"A", "func()", "", false⟩, ⟨"B", "bad", "", false⟩]).2
    [⟨"A", "func()", "", false⟩] ⟨"B", "bad", "", false⟩ [] rfl
    (by decide) (by decide)

theorem joinComma_append : ∀ l₁ l₂ : List String, l₁ ≠ [] → l₂ ≠ [] →
    joinComma (l₁ ++ l₂) = joinComma l₁ ++ ", " ++ joinComma l₂ := by
  intro l₁
  induction l₁ with
  | nil => intro l₂ h₁ _; simp at h₁
  | cons a t ih =>
    intro l₂ _ h₂
    cases t with
    | nil =>
      cases l₂ with
      | nil => simp at h₂
      | cons b u => simp [joinComma]
    | cons b u =>
      have hrec := ih l₂ (by simp) h₂
      simp only [List.cons_append] at hrec ⊢
      simp only [joinComma]
      rw [hrec]
      simp [String.append_assoc]

theorem joinComma_flatten (gs : List (List String)) (h : ∀ g ∈ gs, g ≠ []) :
    joinComma (gs.map joinComma) = joinComma (List.flatten gs) := by
  induction gs with
  | nil => rfl
  | cons g rest ih =>
    cases rest with
    | nil => simp [joinComma, List.flatten]
    | cons g2 r2 =>
      have hrj : (List.flatten (g2 :: r2)) ≠ [] := by
        have hg2 : g2 ≠ [] := h g2 (by simp)
        intro hemp
        simp only [List.flatten_cons] at hemp
        exact hg2 (List.append_eq_nil.mp hemp).1
      have hg : g ≠ [] := h g (by simp)
      have hmap : ((g2 :: r2).map joinComma) ≠ [] := by simp
      have hih := ih (fun x hx => h x (by simp [hx]))
      calc joinComma ((g :: g2 :: r2).map joinComma)
          = joinComma ([joinComma g] ++ (g2 :: r2).map joinComma) := rfl
        _ = joinComma [joinComma g] ++ ", " ++ joinComma ((g2 :: r2).map joinComma) :=
            joinComma_append _ _ (by simp) hmap
        _ = joinComma g ++ ", " ++ joinComma (List.flatten (g2 :: r2)) := by rw [hih]; rfl
        _ = joinComma (g ++ List.flatten (g2 :: r2)) :=
            (joinComma_append g (List.flatten (g2 :: r2)) hg hrj).symm
        _ = joinComma (List.flatten (g :: g2 :: r2)) := by simp [List.flatten_cons]

theorem joinComma_cons (x : String) (l : List String) (h : l ≠ []) :
    joinComma (x :: l) = x ++ ", " ++ joinComma l := by
  have := joinComma_append [x] l (by simp) h
  simpa [joinComma] using this

theorem namedChunks_ne_nil : ∀ (ns : List String) (t : String), namedChunks ns t ≠ []
  | [], _ => by simp [namedChunks]
  | [_], _ => by simp [namedChunks]
  | _ :: _ :: _, _ => by simp [namedChunks]

theorem fieldChunks_ne_nil (f : GoField) : fieldChunks f ≠ [] :=
  namedChunks_ne_nil f.names f.type

theorem joinComma_namedChunks : ∀ (ns : List String), ns ≠ [] → ∀ t,
    joinComma ((namedChunks ns t).map printChunk) = joinComma ns ++ " " ++ t := by
  intro ns
  induction ns with
  | nil => intro h; simp at h
  | cons n rest ih =>
    intro _ t
    cases rest with
    | nil => simp [namedChunks, printChunk, joinComma]
    | cons m ns2 =>
      have hrec := ih (by simp) t
      have hne : ((namedChunks (m :: ns2) t).map printChunk) ≠ [] := by
        simpa using namedChunks_ne_nil (m :: ns2) t
      calc joinComma ((namedChunks (n :: m :: ns2) t).map printChunk)
          = joinComma (n :: (namedChunks (m :: ns2) t).map printChunk) := rfl
        _ = n ++ ", " ++ joinComma ((namedChunks (m :: ns2) t).map printChunk) :=
            joinComma_cons _ _ hne
        _ = n ++ ", " ++ (joinComma (m :: ns2) ++ " " ++ t) := by rw [hrec]
        _ = (n ++ ", " ++ joinComma (m :: ns2)) ++ " " ++ t := by
            simp [String.append_assoc]
        _ = joinComma (n :: m :: ns2) ++ " " ++ t := by
            rw [joinComma_cons n (m :: ns2) (by simp)]

theorem resultPart_eq_chunks (f : GoField) :
    resultPart f = joinComma ((fieldChunks f).map printChunk) := by
  unfold resultPart fieldChunks
  by_cases h : f.names.isEmpty
  · have hn : f.names = [] := List.isEmpty_iff.mp h
    simp [h, hn, namedChunks, printChunk, joinComma]
  · have hn : f.names ≠ [] := by simpa [List.isEmpty_iff] using h
    rw [joinComma_namedChunks f.names hn f.type]
    simp [h]

theorem buildPAAGo_parts (fields : List GoField) : ∀ k,
    (buildPAAGo fields k).1 =
      (synthFields fields k).map (fun f => joinComma ((fieldChunks f).map printChunk)) := by
  induction fields with
  | nil => intro k; rfl
  | cons f rest ih =>
    intro k
    by_cases h : f.names.isEmpty
    · have hn : f.names = [] := List.isEmpty_iff.mp h
      simp only [buildPAAGo, synthFields, h, if_true, List.map_cons, ih]
      simp [fieldChunks, namedChunks, printChunk, joinComma]
    · have hn : f.names ≠ [] := by simpa [List.isEmpty_iff] using h
      simp only [buildPAAGo, synthFields, h, Bool.false_eq_true, if_false,
        List.map_cons, ih]
      rw [← resultPart_eq_chunks]
      simp [resultPart, h]

theorem buildParams_chunks (fields : List GoField) :
    (buildParamsAndArgs fields).1 =
      "(" ++ joinComma ((paramChunks fields).map printChunk) ++ ")" := by
  unfold buildParamsAndArgs paramChunks
  rw [buildPAAGo_parts fields 0]
  have hgs : ∀ g ∈ (synthFields fields 0).map (fun f => (fieldChunks f).map printChunk),
      g ≠ [] := by
    intro g hg
    obtain ⟨f, _, rfl⟩ := List.mem_map.mp hg
    simpa using fieldChunks_ne_nil f
  have := joinComma_flatten ((synthFields fields 0).map (fun f => (fieldChunks f).map printChunk)) hgs
  rw [List.map_map] at this
  have hflat : List.flatten ((synthFields fields 0).map (fun f => (fieldChunks f).map printChunk)) =
      (List.flatten ((synthFields fields 0).map fieldChunks)).map printChunk := by
    rw [List.map_flatten, List.map_map]
    rfl
  rw [hflat] at this
  simp only [Function.comp_def] at this
  rw [this]

theorem reparseNamed_namedChunks : ∀ (ns : List String), ns ≠ [] → ∀ t cs pending,
    reparseNamed pending (namedChunks ns t ++ cs) =
      (reparseNamed [] cs).map (fun fs => ⟨pending ++ ns, t⟩ :: fs) := by
  intro ns
  induction ns with
  | nil => intro h; simp at h
  | cons n rest ih =>
    intro _ t cs pending
    cases rest with
    | nil => simp [namedChunks, reparseNamed]
    | cons m ns2 =>
      have hrec := ih (by simp) t cs (pending ++ [n])
      calc reparseNamed pending (namedChunks (n :: m :: ns2) t ++ cs)
          = reparseNamed (pending ++ [n]) (namedChunks (m :: ns2) t ++ cs) := rfl
        _ = (reparseNamed [] cs).map (fun fs => ⟨pending ++ [n] ++ (m :: ns2), t⟩ :: fs) :=
            hrec
        _ = (reparseNamed [] cs).map (fun fs => ⟨pending ++ (n :: m :: ns2), t⟩ :: fs) := by
            simp

theorem reparseNamed_fields : ∀ rs : List GoField, (∀ f ∈ rs, f.names ≠ []) →
    reparseNamed [] ((rs.map fieldChunks).flatten) = some rs := by
  intro rs
  induction rs with
  | nil => intro _; rfl
  | cons f rest ih =>
    intro h
    have hf : f.names ≠ [] := h f (by simp)
    have hrec := ih (fun g hg => h g (by simp [hg]))
    calc reparseNamed [] (((f :: rest).map fieldChunks).flatten)
        = reparseNamed [] (namedChunks f.names f.type ++ (rest.map fieldChunks).flatten) := by
          simp [List.flatten_cons, fieldChunks]
      _ = (reparseNamed [] ((rest.map fieldChunks).flatten)).map
            (fun fs => ⟨[] ++ f.names, f.type⟩ :: fs) :=
          reparseNamed_namedChunks f.names hf f.type _ []
      _ = some (f :: rest) := by
          rw [hrec]
          simp

theorem allSingles_namedChunks : ∀ (ns : List String), ns ≠ [] → ∀ t,
    allSingles (namedChunks ns t) = false := by
  intro ns
  induction ns with
  | nil => intro h; simp at h
  | cons n rest ih =>
    intro _ t
    cases rest with
    | nil => simp [namedChunks, allSingles]
    | cons m ns2 =>
      have := ih (by simp) t
      simp only [namedChunks, allSingles, List.all_cons] at this ⊢
      simp [this]

theorem map_unnamed_id (rs : List GoField) (h : ∀ f ∈ rs, f.names = []) :
    rs.map (fun f => ({ names := [], type := f.type } : GoField)) = rs := by
  induction rs with
  | nil => rfl
  | cons f rest ih =>
    have hf : f.names = [] := h f (by simp)
    have := ih (fun g hg => h g (by simp [hg]))
    simp only [List.map_cons, this]
    cases f
    simp_all

theorem reparseChunks_fields (rs : List GoField)
    (h : (∀ f ∈ rs, f.names ≠ []) ∨ (∀ f ∈ rs, f.names = [])) :
    reparseChunks ((rs.map fieldChunks).flatten) = some rs := by
  rcases h with h | h
  · cases rs with
    | nil => rfl
    | cons f rest =>
      have hf : f.names ≠ [] := h f (by simp)
      have hpair : allSingles (((f :: rest).map fieldChunks).flatten) = false := by
        simp only [List.map_cons, List.flatten_cons, allSingles, List.all_append]
        have := allSingles_namedChunks f.names hf f.type
        simp only [allSingles] at this
        simp [fieldChunks, this]
      unfold reparseChunks
      rw [hpair]
      simp only [Bool.false_eq_true, if_false]
      exact reparseNamed_fields (f :: rest) h
  · have hflat : ((rs.map fieldChunks).flatten) = rs.map (fun f => Chunk.single f.type) := by
      induction rs with
      | nil => rfl
      | cons f rest ih =>
        have hf : f.names = [] := h f (by simp)
        have := ih (fun g hg => h g (by simp [hg]))
        simp [List.flatten_cons, fieldChunks, hf, namedChunks, this]
    rw [hflat]
    have hall : allSingles (rs.map (fun f => Chunk.single f.type)) = true := by
      simp [allSingles, List.all_map, Function.comp_def]
    unfold reparseChunks
    rw [hall]
    simp only [if_true, List.map_map]
    have := map_unnamed_id rs h
    simp only [Function.comp_def]
    rw [this]

theorem buildResults_eq_printRRes (fields : List GoField) :
    buildResults fields = printRRes (resultChunksR fields) := by
  cases fields with
  | nil => rfl
  | cons f rest =>
    by_cases hb : rest.isEmpty ∧ f.names.isEmpty
    · simp [buildResults, resultChunksR, hb, printRRes]
    · simp only [buildResults, resultChunksR, hb, if_false, printRRes]
      have hgs : ∀ g ∈ (f :: rest).map (fun x => (fieldChunks x).map printChunk), g ≠ [] := by
        intro g hg
        obtain ⟨x, _, rfl⟩ := List.mem_map.mp hg
        simpa using fieldChunks_ne_nil x
      have hj := joinComma_flatten ((f :: rest).map (fun x => (fieldChunks x).map printChunk)) hgs
      rw [List.map_map] at hj
      have hflat : List.flatten ((f :: rest).map (fun x => (fieldChunks x).map printChunk)) =
          (List.flatten ((f :: rest).map fieldChunks)).map printChunk := by
        rw [List.map_flatten, List.map_map]
        rfl
      rw [hflat] at hj
      have hparts : (f :: rest).map resultPart =
          (f :: rest).map (joinComma ∘ fun x => (fieldChunks x).map printChunk) := by
        apply List.map_congr_left
        intro x _
        simpa [Function.comp_def] using resultPart_eq_chunks x
      rw [hparts, hj]

theorem reparseResults_roundtrip (rs : List GoField)
    (h : (∀ f ∈ rs, f.names ≠ []) ∨ (∀ f ∈ rs, f.names = [])) :
    reparseResults (resultChunksR rs) = some rs := by
  cases rs with
  | nil => rfl
  | cons f rest =>
    by_cases hb : rest.isEmpty ∧ f.names.isEmpty
    · obtain ⟨hr, hf⟩ := hb
      have hrest : rest = [] := List.isEmpty_iff.mp hr
      have hfn : f.names = [] := List.isEmpty_iff.mp hf
      subst hrest
      simp only [resultChunksR, List.isEmpty_nil, hf, if_true, and_self, reparseResults]
      cases f
      simp_all
    · simp only [resultChunksR, hb, if_false, reparseResults]
      exact reparseChunks_fields (f :: rest) h

theorem synthFields_named (fields : List GoField) : ∀ k f,
    f ∈ synthFields fields k → f.names ≠ [] := by
  induction fields with
  | nil => intro k f hf; simp [synthFields] at hf
  | cons g rest ih =>
    intro k f hf
    by_cases h : g.names.isEmpty
    · simp only [synthFields, h, if_true, List.mem_cons] at hf
      rcases hf with hf | hf
      · subst hf; simp
      · exact ih (k + 1) f hf
    · simp only [synthFields, h, Bool.false_eq_true, if_false, List.mem_cons] at hf
      rcases hf with hf | hf
      · subst hf; simpa [List.isEmpty_iff] using h
      · exact ih k f hf

theorem flatPairs_synthFields (fields : List GoField) : ∀ k,
    flatPairs (synthFields fields k) = paramPairs fields k := by
  induction fields with
  | nil => intro k; rfl
  | cons f rest ih =>
    intro k
    by_cases h : f.names.isEmpty
    · simp only [synthFields, paramPairs, h, if_true]
      simp only [flatPairs, List.map_cons, List.flatten_cons]
      simp only [List.map_cons, List.map_nil]
      rw [show ((List.map (fun f => List.map (fun n => (n, f.type)) f.names)
        (synthFields rest (k + 1))).flatten) = flatPairs (synthFields rest (k + 1)) from rfl]
      simp [ih]
    · simp only [synthFields, paramPairs, h, Bool.false_eq_true, if_false]
      simp only [flatPairs, List.map_cons, List.flatten_cons]
      rw [show ((List.map (fun f => List.map (fun n => (n, f.type)) f.names)
        (synthFields rest k)).flatten) = flatPairs (synthFields rest k) from rfl]
      simp [ih]

/-- Claim C8: rendering a parsed signature back to text and re-parsing that
text yields an equivalent parsed signature. The rendered parameter text is
the printing of its elements; re-parsing those elements with the Go
parameter-list grammar recovers exactly the synthetically-named parameter
fields, whose ordered (name, type) pairs are the parsed signature's pairs;
the rendered result shape re-parses to exactly the original result fields
(well-formed result lists are all-named or all-unnamed, as `go/parser`
rejects mixed lists). -/
theorem render_reparse_roundtrip (ps rs : List GoField)
    (hwf : (∀ f ∈ rs, f.names ≠ []) ∨ (∀ f ∈ rs, f.names = [])) :
    (buildParamsAndArgs ps).1 =
      "(" ++ joinComma ((paramChunks ps).map printChunk) ++ ")" ∧
    reparseChunks (paramChunks ps) = some (synthFields ps 0) ∧
    flatPairs (synthFields ps 0) = paramPairs ps 0 ∧
    buildResults rs = printRRes (resultChunksR rs) ∧
    reparseResults (resultChunksR rs) = some rs :=
  ⟨buildParams_chunks ps,
   reparseChunks_fields (synthFields ps 0) (Or.inl (synthFields_named ps 0)),
   flatPairs_synthFields ps 0,
   buildResults_eq_printRRes rs,
   reparseResults_roundtrip rs hwf⟩

/-- Witness for render_reparse_roundtrip: one named parameter group and a
two-result unnamed signature, with the re-parse recovering both lists. -/
theorem render_reparse_roundtrip_witness :
    reparseChunks (paramChunks [⟨["a", "b"], "int"⟩, ⟨[], "uintptr"⟩]) =
      some [⟨["a", "b"], "int"⟩, ⟨["arg0"], "uintptr"⟩] ∧
    reparseResults (resultChunksR [⟨[], "int"⟩, ⟨[], "error"⟩]) =
      some [⟨[], "int"⟩, ⟨[], "error"⟩] := by
  have h := render_reparse_roundtrip [⟨["a", "b"], "int"⟩, ⟨[], "uintptr"⟩]
    [⟨[], "int"⟩, ⟨[], "error"⟩] (Or.inr (by decide))
  refine ⟨?_, h.2.2.2.2⟩
  have h2 := h.2.1
  have hsf : synthFields [⟨["a", "b"], "int"⟩, ⟨[], "uintptr"⟩] 0 =
      [⟨["a", "b"], "int"⟩, ⟨["arg0"], "uintptr"⟩] := by decide
  rw [hsf] at h2
  exact h2

theorem openLibGo_all_fail (dlopen : String → Except String Nat)
    (errOf : String → String) :
    ∀ names errs, (∀ m ∈ names, dlopen m = .error (errOf m)) →
      openLibGo dlopen names errs =
        (0, if (errs ++ names.map (fun m => (m, errOf m))).isEmpty then none
            else some (errs ++ names.map (fun m => (m, errOf m)))) := by
  intro names
  induction names with
  | nil => intro errs _; simp [openLibGo]
  | cons n rest ih =>
    intro errs h
    have hn := h n (by simp)
    have := ih (errs ++ [(n, errOf n)]) (fun m hm => h m (by simp [hm]))
    simp only [openLibGo, hn]
    rw [this]
    simp

theorem openLibGo_first_ok (dlopen : String → Except String Nat) :
    ∀ pre name post h errs, (∀ m ∈ pre, ∃ c, dlopen m = .error c) →
      dlopen name = .ok h →
      openLibGo dlopen (pre ++ name :: post) errs = (h, none) := by
  intro pre
  induction pre with
  | nil =>
    intro name post h errs _ hok
    simp [openLibGo, hok]
  | cons m pre ih =>
    intro name post h errs hpre hok
    obtain ⟨c, hc⟩ := hpre m (by simp)
    simp only [List.cons_append, openLibGo, hc]
    exact ih name post h _ (fun x hx => hpre x (by simp [hx])) hok

theorem openLibAttempts_first_ok (dlopen : String → Except String Nat) :
    ∀ pre name post h, (∀ m ∈ pre, ∃ c, dlopen m = .error c) →
      dlopen name = .ok h →
      openLibAttempts dlopen (pre ++ name :: post) = pre ++ [name] := by
  intro pre
  induction pre with
  | nil =>
    intro name post h _ hok
    simp [openLibAttempts, hok]
  | cons m pre ih =>
    intro name post h hpre hok
    obtain ⟨c, hc⟩ := hpre m (by simp)
    simp only [List.cons_append, openLibAttempts, hc, List.append_eq]
    rw [ih name post h (fun x hx => hpre x (by simp [hx])) hok]

theorem candidateLibNames_ne_nil (os : GoOS) : candidateLibNames os ≠ [] := by
  cases os <;> simp [candidateLibNames]

/-- Claim C2: openLib tries the per-platform candidates in order; the first
name that opens successfully wins, no later candidate being attempted; if
every candidate fails, the returned error aggregates the per-candidate
cause for every attempted name, in order. -/
theorem openLib_candidates (dlopen : String → Except String Nat) (os : GoOS) :
    (∀ pre name post h, candidateLibNames os = pre ++ name :: post →
      (∀ m ∈ pre, ∃ c, dlopen m = .error c) → dlopen name = .ok h →
      openLib dlopen os = (h, none) ∧
      openLibAttempts dlopen (candidateLibNames os) = pre ++ [name]) ∧
    (∀ errOf : String → String,
      (∀ m ∈ candidateLibNames os, dlopen m = .error (errOf m)) →
      openLib dlopen os =
        (0, some ((candidateLibNames os).map (fun m => (m, errOf m)))) ∧
      openLibAttempts dlopen (candidateLibNames os) = candidateLibNames os) := by
  constructor
  · intro pre name post h heq hpre hok
    constructor
    · unfold openLib
      rw [heq]
      exact openLibGo_first_ok dlopen pre name post h [] hpre hok
    · rw [heq]
      exact openLibAttempts_first_ok dlopen pre name post h hpre hok
  · intro errOf hall
    constructor
    · unfold openLib
      rw [openLibGo_all_fail dlopen errOf (candidateLibNames os) [] hall]
      have hne : ((candidateLibNames os).map (fun m => (m, errOf m))).isEmpty = false := by
        have := candidateLibNames_ne_nil os
        cases hc : candidateLibNames os
        · exact absurd hc this
        · simp [hc]
      simp [hne]
    · have : ∀ names, (∀ m ∈ names, dlopen m = .error (errOf m)) →
          openLibAttempts dlopen names = names := by
        intro names
        induction names with
        | nil => intro _; rfl
        | cons n rest ih =>
          intro h
          have hn := h n (by simp)
          simp only [openLibAttempts, hn]
          rw [ih (fun m hm => h m (by simp [hm]))]
      exact this _ hall

/-- Witness for openLib_candidates: on linux, with only libwebp.so.8
present, the first candidate fails, the second wins, and no later
candidate is attempted. -/
theorem openLib_candidates_witness :
    openLib (fun n => if n = "libwebp.so.8" then .ok 7 else .error "not found") .linux =
      (7, none) ∧
    openLibAttempts (fun n => if n = "libwebp.so.8" then .ok 7 else .error "not found")
      (candidateLibNames .linux) = ["libwebp.so", "libwebp.so.8"] := by
  have h := (openLib_candidates
      (fun n => if n = "libwebp.so.8" then .ok 7 else .error "not found") .linux).1
    ["libwebp.so"] "libwebp.so.8" ["libwebp.so.7", "libwebp.so.6"] 7
    rfl
    (by intro m hm
        simp only [List.mem_singleton] at hm
        subst hm
        exact ⟨"not found", rfl⟩)
    rfl
  exact h

theorem ensureLoaded_done (env : LoadEnv) (s : LoaderState) (h : s.done = true) :
    ensureLoaded env s = (s, s.loadErr) := by
  unfold ensureLoaded
  rw [h]
  rfl

theorem ensureLoaded_first (env : LoadEnv) :
    (ensureLoaded env initState).1.done = true ∧
    (ensureLoaded env initState).1.openCalls = 1 ∧
    (ensureLoaded env initState).1.registerAllCalls =
      (if (openLib env.dlopen env.os).2 = none then 1 else 0) ∧
    (ensureLoaded env initState).1.loadErr = (ensureLoaded env initState).2 := by
  unfold ensureLoaded
  simp only [initState]
  cases ho : (openLib env.dlopen env.os).2 with
  | none =>
    cases hr : registerAllMandatory env (openLib env.dlopen env.os).1 env.mandatorySymbols <;>
      simp [ho, hr]
  | some errs => simp [ho]

theorem ensureLoadedN_stable (env : LoadEnv) : ∀ n, 1 ≤ n →
    (ensureLoadedN env n).1 = (ensureLoaded env initState).1 ∧
    (ensureLoadedN env n).2 = List.replicate n (ensureLoaded env initState).2 := by
  intro n
  induction n with
  | zero => intro h; omega
  | succ m ih =>
    intro _
    by_cases hm : 1 ≤ m
    · obtain ⟨hs, ho⟩ := ih hm
      have hdone : (ensureLoaded env initState).1.done = true := (ensureLoaded_first env).1
      constructor
      · show (ensureLoaded env (ensureLoadedN env m).1).1 = _
        rw [hs, ensureLoaded_done env _ hdone]
      · show (ensureLoadedN env m).2 ++ [(ensureLoaded env (ensureLoadedN env m).1).2] = _
        rw [hs, ho, ensureLoaded_done env _ hdone]
        have hmem : (ensureLoaded env initState).1.loadErr = (ensureLoaded env initState).2 :=
          (ensureLoaded_first env).2.2.2
        rw [hmem]
        rw [← List.replicate_succ']
    · have hm0 : m = 0 := by omega
      subst hm0
      simp [ensureLoadedN, List.replicate]

/-- Claim C1: EnsureLoaded performs the library open and symbol
registration at most once per process — across any number of sequential
calls, openLib runs exactly once, registerAll runs exactly once when the
open succeeded and never when it failed (a failed load is not retried),
and every call observes the identical outcome of the first attempt. -/
theorem ensureLoaded_once (env : LoadEnv) (n : Nat) (hn : 1 ≤ n) :
    (ensureLoadedN env n).1.openCalls = 1 ∧
    (ensureLoadedN env n).1.registerAllCalls =
      (if (openLib env.dlopen env.os).2 = none then 1 else 0) ∧
    (ensureLoadedN env n).2 = List.replicate n (ensureLoaded env initState).2 := by
  obtain ⟨hs, ho⟩ := ensureLoadedN_stable env n hn
  exact ⟨by rw [hs]; exact (ensureLoaded_first env).2.1,
         by rw [hs]; exact (ensureLoaded_first env).2.2.1,
         ho⟩

/-- Witness for ensureLoaded_once: three calls against an environment where
everything resolves; the open ran once and all three callers saw nil. -/
theorem ensureLoaded_once_witness :
    (ensureLoadedN ⟨fun _ => .ok 5, fun _ _ => some 9, .darwin, ["WebPGetInfo"]⟩ 3).1.openCalls
      = 1 ∧
    (ensureLoadedN ⟨fun _ => .ok 5, fun _ _ => some 9, .darwin, ["WebPGetInfo"]⟩ 3).2 =
      List.replicate 3 none := by
  have h := ensureLoaded_once ⟨fun _ => .ok 5, fun _ _ => some 9, .darwin, ["WebPGetInfo"]⟩ 3
    (by norm_num)
  refine ⟨h.1, ?_⟩
  rw [h.2.2]
  rfl

/-- Claim C6: when the library opens and every mandatory symbol resolves,
the load succeeds (EnsureLoaded returns nil) even if the optional symbol is
absent; in that case the optional function pointer stays nil and
ValidateDecoderConfigAvailable reports false without re-attempting the
load, while a present optional symbol makes it report true. -/
theorem optional_symbol_capability (env : LoadEnv)
    (hopen : (openLib env.dlopen env.os).2 = none)
    (hmand : registerAllMandatory env (openLib env.dlopen env.os).1
      env.mandatorySymbols = none) :
    (ensureLoaded env initState).2 = none ∧
    (env.dlsym (openLib env.dlopen env.os).1 validateSymbol = none →
      (ensureLoaded env initState).1.validatePtr = none ∧
      (validateDecoderConfigAvailable env (ensureLoaded env initState).1).2 = false) ∧
    ((env.dlsym (openLib env.dlopen env.os).1 validateSymbol).isSome →
      (validateDecoderConfigAvailable env (ensureLoaded env initState).1).2 = true) ∧
    (validateDecoderConfigAvailable env (ensureLoaded env initState).1).1.openCalls =
      (ensureLoaded env initState).1.openCalls := by
  have hstep : ensureLoaded env initState =
      (⟨true, none, registerOptionalPtr env (openLib env.dlopen env.os).1 validateSymbol,
        1, 1⟩, none) := by
    unfold ensureLoaded
    simp [initState, hopen, hmand]
  rw [hstep]
  refine ⟨rfl, ?_, ?_, ?_⟩
  · intro habs
    constructor
    · simpa [registerOptionalPtr] using habs
    · unfold validateDecoderConfigAvailable
      rw [ensureLoaded_done env _ rfl]
      simp [registerOptionalPtr, habs]
  · intro hpres
    unfold validateDecoderConfigAvailable
    rw [ensureLoaded_done env _ rfl]
    simpa [registerOptionalPtr] using hpres
  · unfold validateDecoderConfigAvailable
    rw [ensureLoaded_done env _ rfl]

/-- Witness for optional_symbol_capability: mandatory symbols resolve while
the optional validate symbol is absent; the load succeeds yet the
capability reports unavailable. -/
theorem optional_symbol_capability_witness :
    (ensureLoaded ⟨fun _ => .ok 5,
        fun _ sym => if sym = validateSymbol then none else some 3,
        .darwin, ["WebPGetInfo"]⟩ initState).2 = none ∧
    (validateDecoderConfigAvailable ⟨fun _ => .ok 5,
        fun _ sym => if sym = validateSymbol then none else some 3,
        .darwin, ["WebPGetInfo"]⟩
      (ensureLoaded ⟨fun _ => .ok 5,
        fun _ sym => if sym = validateSymbol then none else some 3,
        .darwin, ["WebPGetInfo"]⟩ initState).1).2 = false := by
  have h := optional_symbol_capability ⟨fun _ => .ok 5,
      fun _ sym => if sym = validateSymbol then none else some 3,
      .darwin, ["WebPGetInfo"]⟩ rfl rfl
  exact ⟨h.1, (h.2.1 rfl).2⟩

/-- Claim C7: every ABI layout structure, including its explicit pad fields
and the opaque 80-byte union block of WebPDecBuffer, has computed total
size and per-field offsets equal to the fixed expected constants of ABI
version 0x0210; the union block is exactly as large as its largest variant
(WebPYUVABuffer). -/
theorem abi_layouts_match :
    [(fieldOffsets webPBitstreamFeaturesFields 0, structSize webPBitstreamFeaturesFields),
     (fieldOffsets webPRGBABufferFields 0, structSize webPRGBABufferFields),
     (fieldOffsets webPDecBufferFields 0, structSize webPDecBufferFields),
     (fieldOffsets webPDecoderOptionsFields 0, structSize webPDecoderOptionsFields),
     (fieldOffsets webPDecoderConfigFields 0, structSize webPDecoderConfigFields),
     (fieldOffsets webPConfigFields 0, structSize webPConfigFields),
     (fieldOffsets webPMemoryWriterFields 0, structSize webPMemoryWriterFields),
     (fieldOffsets webPPictureFields 0, structSize webPPictureFields)] =
      expectedLayouts ∧
    structSize webPYUVABufferFields = 80 ∧
    max (structSize webPRGBABufferFields) (structSize webPYUVABufferFields) = 80 := by
  refine ⟨?_, by decide, by decide⟩
  decide

/-- Claim C9: with the library loaded, WebPGetInfo on an empty data slice
returns (0, 0, false, nil) — the invalid input is signalled only through
ok=false with a nil error — whereas the decode functions
(decodeToOwnedBuffer) return ErrInvalidData for empty input. -/
theorem webPGetInfo_empty (native : List Nat → Int × Int × Int)
    (nativeDecode : List Nat → Option (List Nat × Int × Int)) (bpp : Int) :
    webPGetInfo none native [] = (0, 0, false, none) ∧
    decodeToOwnedBuffer none nativeDecode bpp [] = .error .invalidData :=
  ⟨rfl, rfl⟩

theorem validatePixelInput_pos (pixLen w h stride bpp : Int) (hbpp : 0 < bpp)
    (hof1 : goMul w bpp = w * bpp) (hof2 : goMul stride h = stride * h)
    (hok : validatePixelInput pixLen w h stride bpp = none) :
    0 < w ∧ 0 < h ∧ w * bpp ≤ stride ∧ stride * h ≤ pixLen ∧ 0 < pixLen := by
  unfold validatePixelInput at hok
  by_cases h1 : w ≤ 0 ∨ h ≤ 0
  · simp [h1] at hok
  · push_neg at h1
    by_cases h2 : stride < goMul w bpp
    · simp [h1.1.not_le, h1.2.not_le, h2] at hok
    · by_cases h3 : pixLen < goMul stride h
      · simp [h1.1.not_le, h1.2.not_le, h2, h3] at hok
      · push_neg at h2 h3
        rw [hof1] at h2
        rw [hof2] at h3
        have hw : 0 < w := by omega
        have hh : 0 < h := by omega
        have hwb : 0 < w * bpp := mul_pos hw hbpp
        have hst : 0 < stride := lt_of_lt_of_le hwb h2
        have hsh : 0 < stride * h := mul_pos hst hh
        exact ⟨hw, hh, h2, h3, lt_of_lt_of_le hsh h3⟩

theorem encodeWithQuality_err {Q : Type} (pix : List Nat) (w h stride bpp : Int)
    (q : Q) (fn : Nat → Int → Int → Int → Q → Option (List Nat)) (e : LibError)
    (he : validatePixelInput pix.length w h stride bpp = some e) :
    encodeWithQuality none pix w h stride bpp q fn = .err e := by
  unfold encodeWithQuality
  rw [he]

theorem encodeLossless_err (pix : List Nat) (w h stride bpp : Int)
    (fn : Nat → Int → Int → Int → Option (List Nat)) (e : LibError)
    (he : validatePixelInput pix.length w h stride bpp = some e) :
    encodeLossless none pix w h stride bpp fn = .err e := by
  unfold encodeLossless
  rw [he]

/-- Claim C10 (amended): every exported encode function validates its
input before any buffer indexing — ErrInvalidDimension when width or
height is non-positive, ErrInvalidStride when stride is below the
(wrapping 64-bit) product width * bytesPerPixel, a buffer-too-small error
carrying got/need when the pixel buffer is shorter than the (wrapping
64-bit) product stride * height; whenever validation fails the native call
is never reached, and when validation passes and neither product
overflowed, the pixel buffer is nonempty, so the `&pix[0]` index is in
range (no panic) and the native call runs — under overflow the wrapped
checks can pass with a too-small buffer and the index panics
(encode_overflow_counterexample). The exported lossy and lossless wrappers
instantiate bytesPerPixel with 4 (RGBA, BGRA) or 3 (RGB, BGR). -/
theorem encode_validates {Q : Type} (pix : List Nat) (w h stride bpp : Int)
    (q : Q) (fn : Nat → Int → Int → Int → Q → Option (List Nat))
    (fnL : Nat → Int → Int → Int → Option (List Nat)) (hbpp : 0 < bpp) :
    (w ≤ 0 ∨ h ≤ 0 →
      encodeWithQuality none pix w h stride bpp q fn = .err .invalidDimension ∧
      encodeLossless none pix w h stride bpp fnL = .err .invalidDimension) ∧
    (0 < w → 0 < h → stride < goMul w bpp →
      encodeWithQuality none pix w h stride bpp q fn = .err .invalidStride ∧
      encodeLossless none pix w h stride bpp fnL = .err .invalidStride) ∧
    (0 < w → 0 < h → goMul w bpp ≤ stride → (pix.length : Int) < goMul stride h →
      encodeWithQuality none pix w h stride bpp q fn =
        .err (.bufferTooSmall pix.length (goMul stride h)) ∧
      encodeLossless none pix w h stride bpp fnL =
        .err (.bufferTooSmall pix.length (goMul stride h))) ∧
    (∀ e, validatePixelInput pix.length w h stride bpp = some e →
      encodeWithQuality none pix w h stride bpp q fn = .err e ∧
      encodeLossless none pix w h stride bpp fnL = .err e) ∧
    (goMul w bpp = w * bpp → goMul stride h = stride * h →
      validatePixelInput pix.length w h stride bpp = none →
      ∃ b t, pix = b :: t ∧ pix.head? = some b ∧
        encodeWithQuality none pix w h stride bpp q fn =
          (match fn b w h stride q with
           | none => .err .encodeFailed
           | some out => .ok out) ∧
        encodeLossless none pix w h stride bpp fnL =
          (match fnL b w h stride with
           | none => .err .encodeFailed
           | some out => .ok out)) ∧
    webPEncodeRGBA none pix w h stride q fn =
      encodeWithQuality none pix w h stride 4 q fn ∧
    webPEncodeRGB none pix w h stride q fn =
      encodeWithQuality none pix w h stride 3 q fn ∧
    webPEncodeLosslessRGBA none pix w h stride fnL =
      encodeLossless none pix w h stride 4 fnL ∧
    webPEncodeLosslessRGB none pix w h stride fnL =
      encodeLossless none pix w h stride 3 fnL := by
  have hdim : w ≤ 0 ∨ h ≤ 0 →
      validatePixelInput pix.length w h stride bpp = some .invalidDimension := by
    intro hd
    simp [validatePixelInput, hd]
  have hstr : 0 < w → 0 < h → stride < goMul w bpp →
      validatePixelInput pix.length w h stride bpp = some .invalidStride := by
    intro hw hh hs
    simp [validatePixelInput, hw.not_le, hh.not_le, hs]
  have hbuf : 0 < w → 0 < h → goMul w bpp ≤ stride → (pix.length : Int) < goMul stride h →
      validatePixelInput pix.length w h stride bpp =
        some (.bufferTooSmall pix.length (goMul stride h)) := by
    intro hw hh hs hb
    simp [validatePixelInput, hw.not_le, hh.not_le, hs.not_lt, hb]
  refine ⟨?_, ?_, ?_, ?_, ?_, rfl, rfl, rfl, rfl⟩
  · intro hd
    exact ⟨encodeWithQuality_err pix w h stride bpp q fn _ (hdim hd),
           encodeLossless_err pix w h stride bpp fnL _ (hdim hd)⟩
  · intro hw hh hs
    exact ⟨encodeWithQuality_err pix w h stride bpp q fn _ (hstr hw hh hs),
           encodeLossless_err pix w h stride bpp fnL _ (hstr hw hh hs)⟩
  · intro hw hh hs hb
    exact ⟨encodeWithQuality_err pix w h stride bpp q fn _ (hbuf hw hh hs hb),
           encodeLossless_err pix w h stride bpp fnL _ (hbuf hw hh hs hb)⟩
  · intro e he
    exact ⟨encodeWithQuality_err pix w h stride bpp q fn e he,
           encodeLossless_err pix w h stride bpp fnL e he⟩
  · intro hof1 hof2 hv
    obtain ⟨_, _, _, _, hlen⟩ :=
      validatePixelInput_pos pix.length w h stride bpp hbpp hof1 hof2 hv
    obtain ⟨b, t, rfl⟩ : ∃ b t, pix = b :: t := by
      cases pix with
      | nil => simp at hlen
      | cons b t => exact ⟨b, t, rfl⟩
    refine ⟨b, t, rfl, rfl, ?_, ?_⟩
    · unfold encodeWithQuality
      rw [hv]
      rfl
    · unfold encodeLossless
      rw [hv]
      rfl

/-- Witness for encode_validates: a 1x1 RGBA pixel buffer passes validation
and reaches the native call on its first byte, while a zero width is
rejected as an invalid dimension. -/
theorem encode_validates_witness :
    encodeWithQuality none [1, 2, 3, 4] 1 1 4 4 (0 : Int)
      (fun b _ _ _ _ => some [b]) = .ok [1] ∧
    encodeWithQuality none ([] : List Nat) 0 1 4 4 (0 : Int)
      (fun b _ _ _ _ => some [b]) = .err .invalidDimension := by
  have h := encode_validates [1, 2, 3, 4] 1 1 4 4 (0 : Int)
      (fun b _ _ _ _ => some [b]) (fun b _ _ _ => some [b]) (by norm_num)
  have h2 := encode_validates ([] : List Nat) 0 1 4 4 (0 : Int)
      (fun b _ _ _ _ => some [b]) (fun b _ _ _ => some [b]) (by norm_num)
  constructor
  · obtain ⟨b, t, hbt, _, hrun, _⟩ := h.2.2.2.2.1 (by decide) (by decide) (by decide)
    injection hbt with hb ht
    subst hb
    subst ht
    simpa using hrun
  · exact (h2.1 (Or.inl (by norm_num))).1

/-- Counterexample for claim C10 as stated: with an empty pixel buffer,
width 1, height 4, stride 2^62 and 4 bytes per pixel, every check of
validatePixelInput passes — the Go `int` product required = stride * height
wraps to 0 — yet `&pix[0]` is out of range, so the encode wrapper panics
instead of returning an error: when the checks pass the index is not
always in range. -/
theorem encode_overflow_counterexample :
    validatePixelInput 0 1 4 (2 ^ 62) 4 = none ∧
    encodeWithQuality none ([] : List Nat) 1 4 (2 ^ 62) 4 (0 : Int)
      (fun _ _ _ _ _ => none) = .panicked := by
  constructor
  · decide
  · decide
